import Mathlib

/-!
Verification of the SmartQueueingSystem per-frame pipeline
(`person_detect.py`): zone registry (`Queue`), detection postprocessing
(`PersonDetect.preprocess_outputs`), prediction (`PersonDetect.predict`),
the overlay-text loop and the stats record written by `main`.

The Python code is shallowly embedded: boxes become 4-field integer
records, normalized detector scores and coordinates become rationals,
the occupancy dict built by `Queue.check_coords` becomes an association
list whose insertion order matches the dict-comprehension order, and the
frame loops become folds / structural recursion.
-/

namespace SmartQueue

/-- A 4-tuple `(xmin, ymin, xmax, ymax)` of pixel coordinates.  The Python
code uses plain tuples both for zone rectangles (`q[0..3]`) and for
detection bounding boxes produced by `preprocess_outputs`. -/
structure Box where
  xmin : ℤ
  ymin : ℤ
  xmax : ℤ
  ymax : ℤ
deriving DecidableEq, Repr

/-- The membership test inside `Queue.check_coords` (line 31):
`coord[0] > q[0] and coord[2] < q[2]`. -/
def inQ (q coord : Box) : Bool :=
  decide (coord.xmin > q.xmin) && decide (coord.xmax < q.xmax)

/-- Number of detections in `coords` passing `inQ` for zone `q`
(the value `check_coords` ends up storing for that zone). -/
def countZone (q : Box) (coords : List Box) : ℕ :=
  (coords.filter (fun c => inQ q c)).length

/-- The dict comprehension `d = {k+1: 0 for k in range(len(self.queues))}`
(line 28), kept as an association list in insertion order. -/
def initOcc (n : ℕ) : List (ℕ × ℕ) :=
  (List.range n).map (fun k => (k + 1, 0))

/-- The dict update `d[key] += 1` on the association list. -/
def bump (d : List (ℕ × ℕ)) (key : ℕ) : List (ℕ × ℕ) :=
  d.map (fun p => if p.1 = key then (p.1, p.2 + 1) else p)

/-- Inner loop of `check_coords` (lines 30-32):
`for i, q in enumerate(self.queues): if coord[0]>q[0] and coord[2]<q[2]: d[i+1]+=1`. -/
def innerLoop (queues : List Box) (d : List (ℕ × ℕ)) (coord : Box) : List (ℕ × ℕ) :=
  queues.enum.foldl (fun acc iq => if inQ iq.2 coord then bump acc (iq.1 + 1) else acc) d

/-- `Queue.check_coords` (lines 27-33): initialize the per-zone dict and run
the nested loops over detections and enumerated zones. -/
def check_coords (queues : List Box) (coords : List Box) : List (ℕ × ℕ) :=
  coords.foldl (innerLoop queues) (initOcc queues.length)

/-- `Queue.add_queue` (lines 18-19): `self.queues.append(points)` with no
validation whatsoever. -/
def add_queue (queues : List Box) (points : Box) : List Box :=
  queues ++ [points]

/-- How many enumerated zones in `E` both match the key `key` and accept the
detection `c`; this is what one pass of the inner loop adds at `key`. -/
def hitCount (E : List (ℕ × Box)) (c : Box) (key : ℕ) : ℕ :=
  (E.filter (fun iq => inQ iq.2 c && (iq.1 + 1 == key))).length

lemma hitCount_nil (c : Box) (key : ℕ) : hitCount [] c key = 0 := rfl

lemma hitCount_cons (a : ℕ × Box) (E : List (ℕ × Box)) (c : Box) (key : ℕ) :
    hitCount (a :: E) c key =
      (if inQ a.2 c && (a.1 + 1 == key) then 1 else 0) + hitCount E c key := by
  unfold hitCount
  rw [List.filter_cons]
  by_cases h : (inQ a.2 c && (a.1 + 1 == key)) = true
  · simp [h, Nat.add_comm]
  · simp [h]

/-- One pass of the inner loop is a pointwise update of the association
list: every entry grows by the number of matching enumerated zones. -/
lemma innerLoop_foldl_eq (E : List (ℕ × Box)) (d : List (ℕ × ℕ)) (c : Box) :
    E.foldl (fun acc iq => if inQ iq.2 c then bump acc (iq.1 + 1) else acc) d =
      d.map (fun p => (p.1, p.2 + hitCount E c p.1)) := by
  induction E generalizing d with
  | nil =>
    simp [hitCount_nil]
  | cons a E ih =>
    rw [List.foldl_cons, ih]
    by_cases h : inQ a.2 c = true
    · rw [if_pos h]
      unfold bump
      rw [List.map_map]
      apply List.map_congr_left
      intro p _
      rw [hitCount_cons]
      by_cases hk : p.1 = a.1 + 1
      · have hb : (a.1 + 1 == p.1) = true := by
          rw [hk]
          exact beq_self_eq_true _
        simp [Function.comp, hk, h, hb]
        omega
      · have hb : (a.1 + 1 == p.1) = false := by
          simp only [beq_eq_false_iff_ne]
          omega
        simp [Function.comp, hk, h, hb]
    · rw [if_neg h]
      apply List.map_congr_left
      intro p _
      rw [hitCount_cons]
      have hf : inQ a.2 c = false := Bool.eq_false_iff.mpr h
      simp [hf]

/-- In a nodup-keyed enumeration, the hit count at the key of a member
`(k, q)` is 1 or 0 according to whether `q` accepts the detection. -/
lemma hitCount_of_mem (E : List (ℕ × Box)) (c : Box) (k : ℕ) (q : Box)
    (hnd : (E.map Prod.fst).Nodup) (hm : (k, q) ∈ E) :
    hitCount E c (k + 1) = if inQ q c then 1 else 0 := by
  induction E with
  | nil => cases hm
  | cons a E ih =>
    have hnd2 : a.1 ∉ E.map Prod.fst ∧ (E.map Prod.fst).Nodup := by
      rw [List.map_cons] at hnd
      exact ⟨(List.nodup_cons.mp hnd).1, (List.nodup_cons.mp hnd).2⟩
    rw [hitCount_cons]
    rcases List.mem_cons.mp hm with heq | htl
    · have hafst : a.1 = k := by rw [← heq]
      have hnone : ∀ jq ∈ E, (inQ jq.2 c && (jq.1 + 1 == k + 1)) = false := by
        intro jq hjq
        have hne : jq.1 ≠ k := by
          intro hfst
          apply hnd2.1
          rw [hafst, ← hfst]
          exact List.mem_map.mpr ⟨jq, hjq, rfl⟩
        have hb : (jq.1 + 1 == k + 1) = false := by
          simp only [beq_eq_false_iff_ne]
          omega
        rw [hb, Bool.and_false]
      have hz : hitCount E c (k + 1) = 0 := by
        unfold hitCount
        rw [List.filter_eq_nil_iff.mpr
          (by intro jq hjq; rw [hnone jq hjq]; exact Bool.false_ne_true)]
        rfl
      rw [hz]
      have hq2 : a.2 = q := by rw [← heq]
      rw [hq2, hafst]
      simp only [beq_self_eq_true, Bool.and_true]
      by_cases h : inQ q c = true
      · simp [h]
      · simp [Bool.eq_false_iff.mpr h]
    · have hne : a.1 ≠ k := by
        intro hfst
        apply hnd2.1
        rw [hfst]
        exact List.mem_map.mpr ⟨(k, q), htl, rfl⟩
      have hb : (a.1 + 1 == k + 1) = false := by
        simp only [beq_eq_false_iff_ne]
        omega
      rw [hb, Bool.and_false, if_neg (by simp)]
      rw [ih hnd2.2 htl]
      omega

/-- Appending one more detection to `countZone`. -/
lemma countZone_append (q : Box) (coords : List Box) (c : Box) :
    countZone q (coords ++ [c]) = countZone q coords + (if inQ q c then 1 else 0) := by
  unfold countZone
  rw [List.filter_append, List.length_append]
  by_cases h : inQ q c = true
  · simp [h]
  · simp [Bool.eq_false_iff.mpr h]

/-- Characterization of `Queue.check_coords`: the returned dict is, in
insertion order, `(i+1, countZone zone_i coords)` for each enumerated zone. -/
lemma check_coords_eq (queues coords : List Box) :
    check_coords queues coords =
      queues.enum.map (fun iq => (iq.1 + 1, countZone iq.2 coords)) := by
  induction coords using List.reverseRecOn with
  | nil =>
    unfold check_coords
    rw [List.foldl_nil]
    unfold initOcc
    rw [show (fun iq : ℕ × Box => (iq.1 + 1, countZone iq.2 [])) =
        ((fun k => (k + 1, (0 : ℕ))) ∘ Prod.fst) from rfl]
    rw [← List.map_map, List.enum_map_fst]
  | append_singleton coords c ih =>
    unfold check_coords at ih ⊢
    rw [List.foldl_append, List.foldl_cons, List.foldl_nil, ih]
    unfold innerLoop
    rw [innerLoop_foldl_eq, List.map_map]
    apply List.map_congr_left
    intro iq hiq
    have hm : (iq.1, iq.2) ∈ queues.enum := by
      simpa using hiq
    simp only [Function.comp]
    rw [hitCount_of_mem queues.enum c iq.1 iq.2 (List.nodup_enum_map_fst queues) hm]
    rw [countZone_append]

/-- The occupancy list always has one entry per registered zone. -/
lemma check_coords_length (queues coords : List Box) :
    (check_coords queues coords).length = queues.length := by
  rw [check_coords_eq, List.length_map, List.enum_length]

/-- The keys of the occupancy list are exactly `1, 2, ..., N` in order. -/
lemma check_coords_keys (queues coords : List Box) :
    (check_coords queues coords).map Prod.fst =
      (List.range queues.length).map (fun k => k + 1) := by
  rw [check_coords_eq, List.map_map]
  rw [show (Prod.fst ∘ fun iq : ℕ × Box => (iq.1 + 1, countZone iq.2 coords)) =
      ((fun k => k + 1) ∘ Prod.fst) from rfl]
  rw [← List.map_map, List.enum_map_fst]

/-- Entrywise view: the `i`-th entry of the occupancy list is the key `i+1`
together with the number of detections the `i`-th zone accepts. -/
lemma check_coords_getElem (queues coords : List Box) (i : ℕ) (hi : i < queues.length) :
    (check_coords queues coords)[i]? = some (i + 1, countZone queues[i] coords) := by
  rw [check_coords_eq, List.getElem?_map, List.getElem?_enum]
  rw [List.getElem?_eq_getElem hi]
  rfl

/-- One raw detector output row.  The network output has shape
`[1, 1, N, 7]`; `preprocess_outputs` reads `box[2]` (confidence) and
`box[3..6]` (normalized corner coordinates), so the row is kept as a
record of those seven entries. -/
structure Row where
  image_id : ℚ
  label : ℚ
  conf : ℚ
  x1 : ℚ
  y1 : ℚ
  x2 : ℚ
  y2 : ℚ
deriving DecidableEq, Repr

/-- Python `int()` applied to a rational: truncation toward zero (for the
normal form `num/den` with positive denominator this is exactly integer
T-division of numerator by denominator). -/
def pyInt (q : ℚ) : ℤ :=
  if 0 ≤ q then ⌊q⌋ else ⌈q⌉

/-- The pixel box built for one kept row (lines 112-115):
`(int(box[3]*w), int(box[4]*h), int(box[5]*w), int(box[6]*h))`. -/
def pixelBox (width height : ℤ) (box : Row) : ℤ × ℤ × ℤ × ℤ :=
  (pyInt (box.x1 * width), pyInt (box.y1 * height),
   pyInt (box.x2 * width), pyInt (box.y2 * height))

/-- `PersonDetect.preprocess_outputs` (lines 99-119): walk the output rows,
keep a row when `box[2] >= self.threshold`, and append its denormalized
pixel box to the result list. -/
def preprocess_outputs (threshold : ℚ) (width height : ℤ) (outputs : List Row) :
    List (ℤ × ℤ × ℤ × ℤ) :=
  outputs.foldl
    (fun bounding_boxes box =>
      if threshold ≤ box.conf then bounding_boxes ++ [pixelBox width height box]
      else bounding_boxes)
    []

/-- `PersonDetect.draw_outputs` (lines 88-97): one `cv2.rectangle` call per
bounding box; the frame is modelled by the list of rectangles drawn on it. -/
def draw_outputs (bounding_boxes : List (ℤ × ℤ × ℤ × ℤ))
    (image : List (ℤ × ℤ × ℤ × ℤ)) : List (ℤ × ℤ × ℤ × ℤ) :=
  bounding_boxes.foldl (fun img bb => img ++ [bb]) image

/-- `PersonDetect.predict` (lines 68-84).  `bounding_boxes` is assigned only
inside the `if self.net.requests[0].wait(-1) == 0` branch; the `none`
result models the `NameError`/`UnboundLocalError` raised by
`return bounding_boxes, image` when that branch was not taken. -/
def predict (waitStatus : ℤ) (threshold : ℚ) (width height : ℤ)
    (networkResult : List Row) (image : List (ℤ × ℤ × ℤ × ℤ)) :
    Option (List (ℤ × ℤ × ℤ × ℤ) × List (ℤ × ℤ × ℤ × ℤ)) :=
  if waitStatus = 0 then
    let bounding_boxes := preprocess_outputs threshold width height networkResult
    some (bounding_boxes, draw_outputs bounding_boxes image)
  else
    none

/-- The text built for one occupancy entry `(k, v)` (lines 187-190):
`out_text += f"No. of People in Queue {k} is {v} "` followed by the
conditional `Queue full` suffix when `v >= int(max_people)`. -/
def lineText (k v max_people : ℕ) : String :=
  let out_text := "No. of People in Queue " ++ toString k ++ " is " ++ toString v ++ " "
  if max_people ≤ v then out_text ++ " Queue full; Please move to next Queue "
  else out_text

/-- The overlay loop of `main` (lines 184-193), started at `y_pixel = 25`:
each iteration issues one `cv2.putText(image, out_text, (15, y_pixel), ...)`
and then does `y_pixel += 40`.  The result is the list of issued
`(text, y_pixel)` pairs in call order. -/
def drawLoop (occ : List (ℕ × ℕ)) (max_people : ℕ) (y_pixel : ℕ) :
    List (String × ℕ) :=
  match occ with
  | [] => []
  | kv :: rest => (lineText kv.1 kv.2 max_people, y_pixel) :: drawLoop rest max_people (y_pixel + 40)

/-- The per-frame text overlay: the loop of lines 187-193 run from the
initial `y_pixel = 25` of line 185. -/
def renderLines (occ : List (ℕ × ℕ)) (max_people : ℕ) : List (String × ℕ) :=
  drawLoop occ max_people 25

/-- Python `round()` to the nearest integer, ties to the even integer. -/
def roundHalfEven (q : ℚ) : ℤ :=
  let f := ⌊q⌋
  if q - f < 1 / 2 then f
  else if 1 / 2 < q - f then f + 1
  else if f % 2 = 0 then f else f + 1

/-- Python `round(x, 1)`: round to the closest multiple of `1/10`. -/
def round1 (q : ℚ) : ℚ :=
  (roundHalfEven (10 * q) : ℚ) / 10

/-- The stats record written by `main` (lines 196-203): first
`total_inference_time = round(total_time, 1)`, then
`fps = counter / total_inference_time`, then `total_model_load_time`,
one value per line. -/
def statsLines (total_time : ℚ) (counter : ℕ) (model_load_time : ℚ) : List ℚ :=
  let total_inference_time := round1 total_time
  let fps := (counter : ℚ) / total_inference_time
  [total_inference_time, fps, model_load_time]

/-- Zone setup in `main` (lines 148-155): start from an empty `Queue`; when
`np.load(args.queue_param)` succeeds (`some`), `add_queue` each loaded
rectangle; when it raises (`none`), print and keep the registry empty. -/
def setupQueues (loaded : Option (List Box)) : List Box :=
  match loaded with
  | some queue_param => queue_param.foldl add_queue []
  | none => []

/-- The postprocessing fold with an arbitrary accumulator prefix. -/
lemma preprocess_outputs_foldl (threshold : ℚ) (width height : ℤ)
    (outputs : List Row) (acc : List (ℤ × ℤ × ℤ × ℤ)) :
    outputs.foldl
      (fun bounding_boxes box =>
        if threshold ≤ box.conf then bounding_boxes ++ [pixelBox width height box]
        else bounding_boxes)
      acc =
      acc ++ (outputs.filter (fun box => decide (threshold ≤ box.conf))).map
        (pixelBox width height) := by
  induction outputs generalizing acc with
  | nil => simp
  | cons box rest ih =>
    rw [List.foldl_cons, List.filter_cons]
    by_cases h : threshold ≤ box.conf
    · rw [if_pos h, ih, if_pos (by simpa using h)]
      simp
    · rw [if_neg h, ih, if_neg (by simpa using h)]

/-- Characterization of `preprocess_outputs`: exactly the rows whose
confidence meets the threshold survive, in input order, each mapped to its
denormalized pixel box. -/
lemma preprocess_outputs_eq (threshold : ℚ) (width height : ℤ) (outputs : List Row) :
    preprocess_outputs threshold width height outputs =
      (outputs.filter (fun box => decide (threshold ≤ box.conf))).map
        (pixelBox width height) := by
  unfold preprocess_outputs
  rw [preprocess_outputs_foldl]
  rfl

/-- Drawing appends the boxes, in order, to the drawn-rectangle list. -/
lemma draw_outputs_eq (bounding_boxes image : List (ℤ × ℤ × ℤ × ℤ)) :
    draw_outputs bounding_boxes image = image ++ bounding_boxes := by
  unfold draw_outputs
  induction bounding_boxes generalizing image with
  | nil => simp
  | cons bb rest ih =>
    rw [List.foldl_cons, ih]
    simp

/-- Entrywise view of the overlay loop at a general starting offset. -/
lemma drawLoop_getElem (occ : List (ℕ × ℕ)) (max_people y i : ℕ) :
    (drawLoop occ max_people y)[i]? =
      occ[i]?.map (fun kv => (lineText kv.1 kv.2 max_people, y + 40 * i)) := by
  induction occ generalizing y i with
  | nil =>
    rw [show drawLoop [] max_people y = [] from rfl]
    simp
  | cons kv rest ih =>
    cases i with
    | zero => simp [drawLoop]
    | succ j =>
      rw [drawLoop]
      rw [List.getElem?_cons_succ, List.getElem?_cons_succ, ih]
      cases rest[j]? with
      | none => rfl
      | some kv2 =>
        simp
        omega

/-- `foldl add_queue` just appends the loaded rectangles in order. -/
lemma foldl_add_queue (queue_param acc : List Box) :
    queue_param.foldl add_queue acc = acc ++ queue_param := by
  induction queue_param generalizing acc with
  | nil => simp
  | cons q rest ih =>
    rw [List.foldl_cons, ih]
    simp [add_queue]

/-- The membership test in propositional form. -/
lemma inQ_eq_true_iff (q c : Box) :
    inQ q c = true ↔ q.xmin < c.xmin ∧ c.xmax < q.xmax := by
  simp [inQ]

/-- C1: for every registered zone `z` (the `i`-th one) and every detection
`d`, `Queue.check_coords` increments `z`'s count exactly when
`d.xmin > z.xmin` and `d.xmax < z.xmax`: adding `d` to the detection list
raises the `i`-th entry by 1 under exactly that strict horizontal
condition; the test ignores every vertical coordinate of zone and
detection alike; and a detection with `xmin` equal to the zone's `xmin`,
or `xmax` equal to the zone's `xmax`, never counts. -/
theorem claim_C1_zone_membership (queues coords : List Box) (d : Box)
    (i : ℕ) (hi : i < queues.length) :
    ((check_coords queues (coords ++ [d]))[i]? =
        some (i + 1, countZone queues[i] coords +
          (if queues[i].xmin < d.xmin ∧ d.xmax < queues[i].xmax then 1 else 0)))
    ∧ ((check_coords queues coords)[i]? = some (i + 1, countZone queues[i] coords))
    ∧ (∀ zy1 zy2 dy1 dy2,
        inQ ⟨queues[i].xmin, zy1, queues[i].xmax, zy2⟩ ⟨d.xmin, dy1, d.xmax, dy2⟩ =
          inQ queues[i] d)
    ∧ (d.xmin = queues[i].xmin ∨ d.xmax = queues[i].xmax →
        inQ queues[i] d = false) := by
  refine ⟨?_, check_coords_getElem queues coords i hi, ?_, ?_⟩
  · rw [check_coords_getElem queues (coords ++ [d]) i hi, countZone_append]
    have hcond : inQ queues[i] d = true ↔
        queues[i].xmin < d.xmin ∧ d.xmax < queues[i].xmax := inQ_eq_true_iff _ _
    by_cases h : queues[i].xmin < d.xmin ∧ d.xmax < queues[i].xmax
    · rw [if_pos (hcond.mpr h), if_pos h]
    · rw [if_neg (fun hq => h (hcond.mp hq)), if_neg h]
  · intro zy1 zy2 dy1 dy2
    rfl
  · intro h
    rcases h with h | h
    · simp [inQ, h]
    · simp [inQ, h]

/-- Witness for C1: one zone `(0, 0, 10, 10)` and one detection
`(1, 5, 9, 100)` that exceeds it vertically but is strictly inside
horizontally: the zone's count becomes 1. -/
theorem claim_C1_zone_membership_witness :
    (check_coords [⟨0, 0, 10, 10⟩] [⟨1, 5, 9, 100⟩])[0]? = some (1, 1) := by
  have h := claim_C1_zone_membership [⟨0, 0, 10, 10⟩] [] ⟨1, 5, 9, 100⟩ 0 (by decide)
  rw [show [(⟨1, 5, 9, 100⟩ : Box)] = [] ++ [⟨1, 5, 9, 100⟩] from rfl, h.1]
  decide

/-- C2: `preprocess_outputs` emits a pixel box for exactly the rows whose
confidence meets the threshold (`box[2] >= self.threshold`, inclusive), in
input order; a single row is kept when `threshold ≤ conf` (so equality is
kept) and silently dropped otherwise. -/
theorem claim_C2_threshold_filter (threshold : ℚ) (width height : ℤ)
    (outputs : List Row) :
    preprocess_outputs threshold width height outputs =
      (outputs.filter (fun box => decide (threshold ≤ box.conf))).map
        (pixelBox width height)
    ∧ (∀ box : Row, preprocess_outputs threshold width height [box] =
        if threshold ≤ box.conf then [pixelBox width height box] else []) := by
  refine ⟨preprocess_outputs_eq threshold width height outputs, ?_⟩
  intro box
  by_cases h : threshold ≤ box.conf
  · simp [preprocess_outputs, h]
  · simp [preprocess_outputs, h]

/-- Counterexample to C3: the code truncates with `int()`, it does not
round.  With `W = 544`, `H = 320`, threshold `0.5` and the kept row
`(_, _, 0.9, 0.001, 0.2, 0.3, 0.4)`, the code produces
`xmin = int(0.001 * 544) = int(0.544) = 0`, while the claimed formula
`round(x1 * W) = round(0.544)` gives 1. -/
theorem claim_C3_counterexample :
    preprocess_outputs (1/2) 544 320 [⟨0, 0, 9/10, 1/1000, 1/5, 3/10, 2/5⟩] =
      [(0, 64, 163, 128)]
    ∧ round ((1/1000 : ℚ) * 544) = (1 : ℤ)
    ∧ ((0 : ℤ), (64 : ℤ), (163 : ℤ), (128 : ℤ)) ≠
        ((1 : ℤ), (64 : ℤ), (163 : ℤ), (128 : ℤ)) := by
  refine ⟨?_, ?_, by decide⟩
  · norm_num [preprocess_outputs, pixelBox, pyInt]
  · norm_num [round_eq]

/-- C3 (amended): every kept row is denormalized with Python `int()` —
truncation toward zero, which is the floor for the nonnegative products of
normalized coordinates with positive frame dimensions — i.e.
`xmin = int(x1*W), ymin = int(y1*H), xmax = int(x2*W), ymax = int(y2*H)`;
on the spec's concrete instance (`W = 544`, `H = 320`, threshold `0.5`,
row scores `0.9/0.1/0.2/0.3/0.4`) this yields `(54, 64, 163, 128)`, the
very box the claim lists. -/
theorem claim_C3_amended_denormalization (threshold : ℚ) (width height : ℤ)
    (box : Row) (hc : threshold ≤ box.conf) :
    preprocess_outputs threshold width height [box] =
      [(pyInt (box.x1 * width), pyInt (box.y1 * height),
        pyInt (box.x2 * width), pyInt (box.y2 * height))]
    ∧ (∀ q : ℚ, 0 ≤ q → pyInt q = ⌊q⌋)
    ∧ preprocess_outputs (1/2) 544 320 [⟨0, 0, 9/10, 1/10, 1/5, 3/10, 2/5⟩] =
        [(54, 64, 163, 128)] := by
  refine ⟨by simp [preprocess_outputs, pixelBox, hc], ?_, ?_⟩
  · intro q hq
    simp [pyInt, hq]
  · norm_num [preprocess_outputs, pixelBox, pyInt]

/-- Witness for the amended C3 at the spec's concrete row. -/
theorem claim_C3_amended_witness :
    preprocess_outputs (1/2) 544 320 [⟨0, 0, 9/10, 1/10, 1/5, 3/10, 2/5⟩] =
      [(54, 64, 163, 128)] := by
  have h := claim_C3_amended_denormalization (1/2) 544 320
    ⟨0, 0, 9/10, 1/10, 1/5, 3/10, 2/5⟩ (by norm_num)
  exact h.2.2

/-- C4: the occupancy mapping has exactly one entry per registered zone,
its keys are exactly the 1-based registration indices `1..N` in order, it
is empty when no zone is registered, every count starts at 0 before any
detection is seen, and a zone with no qualifying detection reports 0. -/
theorem claim_C4_occupancy_shape (queues coords : List Box) :
    (check_coords queues coords).length = queues.length
    ∧ (check_coords queues coords).map Prod.fst =
        (List.range queues.length).map (fun k => k + 1)
    ∧ check_coords [] coords = []
    ∧ check_coords queues [] = (List.range queues.length).map (fun k => (k + 1, 0))
    ∧ (∀ i, i < queues.length → ∀ hi : i < queues.length,
        countZone queues[i] coords = 0 →
          (check_coords queues coords)[i]? = some (i + 1, 0)) := by
  refine ⟨check_coords_length queues coords, check_coords_keys queues coords,
    ?_, rfl, ?_⟩
  · rw [check_coords_eq]
    rfl
  · intro i _ hi h0
    rw [check_coords_getElem queues coords i hi, h0]

/-- Witness for C4: one zone, one non-qualifying detection (its `xmin`
equals the zone's), count 0. -/
theorem claim_C4_occupancy_shape_witness :
    (check_coords [⟨0, 0, 10, 10⟩] [⟨0, 0, 20, 5⟩])[0]? = some (1, 0) := by
  have h := (claim_C4_occupancy_shape [⟨0, 0, 10, 10⟩] [⟨0, 0, 20, 5⟩]).2.2.2.2
    0 (by decide) (by decide) (by decide)
  exact h

/-- Counterexample to C5: `add_queue` performs no validation: the
degenerate rectangle `(2, 0, 1, 5)` (with `x_max <= x_min`) is registered
anyway, so no `InvalidZoneError` failure exists. -/
theorem claim_C5_counterexample :
    (Box.mk 2 0 1 5).xmax ≤ (Box.mk 2 0 1 5).xmin
    ∧ add_queue [] (Box.mk 2 0 1 5) = [Box.mk 2 0 1 5] := by
  exact ⟨by decide, rfl⟩

/-- C5 (amended): `add_queue` appends every rectangle to the registry
unconditionally — degenerate or not — growing it by one; there is no
validation and no error path. -/
theorem claim_C5_amended_no_validation (queues : List Box) (points : Box) :
    add_queue queues points = queues ++ [points]
    ∧ (add_queue queues points).length = queues.length + 1 := by
  exact ⟨rfl, by simp [add_queue]⟩

/-- Counterexample to C6: the second stats value is **not**
`frame_count / total_inference_seconds`: the code computes
`fps = counter / round(total_time, 1)` from the already-rounded total.
With raw total `1.44` s and 1 frame the artifact holds `[1.4, 5/7, 2.0]`
while `1 / 1.44 = 25/36 ≠ 5/7`. -/
theorem claim_C6_counterexample :
    statsLines (36/25) 1 2 = [7/5, 5/7, 2]
    ∧ (1 : ℚ) / (36/25) ≠ 5/7 := by
  constructor
  · norm_num [statsLines, round1, roundHalfEven]
  · norm_num

/-- C6 (amended): the stats artifact contains exactly three values, in
order: the total inference time rounded to one decimal place, the average
fps computed as `frame_count` divided by that **rounded** total, and the
model load time. -/
theorem claim_C6_amended_stats (total_time : ℚ) (counter : ℕ)
    (model_load_time : ℚ) :
    statsLines total_time counter model_load_time =
      [round1 total_time, (counter : ℚ) / round1 total_time, model_load_time]
    ∧ (statsLines total_time counter model_load_time).length = 3 := by
  exact ⟨rfl, rfl⟩

/-- C7: the overlay renders, for the `i`-th occupancy entry `(k, v)`, the
line `"No. of People in Queue k is v "` (with the `Queue full` notice
appended on the same line exactly when `v >= max_people`) at vertical
offset `25 + 40*i` — first line at 25, each later line 40 lower — and for
two zones the rendered order follows registration order: swapping the
zones swaps which count appears on which line. -/
theorem claim_C7_overlay_text (occ : List (ℕ × ℕ)) (max_people : ℕ)
    (z1 z2 : Box) (ds : List Box) (i : ℕ) :
    (renderLines occ max_people)[i]? =
      occ[i]?.map (fun kv => (lineText kv.1 kv.2 max_people, 25 + 40 * i))
    ∧ lineText 1 0 2 = "No. of People in Queue 1 is 0 "
    ∧ lineText 2 3 2 =
        "No. of People in Queue 2 is 3  Queue full; Please move to next Queue "
    ∧ renderLines (check_coords [z1, z2] ds) max_people =
        [(lineText 1 (countZone z1 ds) max_people, 25),
         (lineText 2 (countZone z2 ds) max_people, 65)]
    ∧ renderLines (check_coords [z2, z1] ds) max_people =
        [(lineText 1 (countZone z2 ds) max_people, 25),
         (lineText 2 (countZone z1 ds) max_people, 65)] := by
  refine ⟨drawLoop_getElem occ max_people 25 i, by decide, by decide, ?_, ?_⟩
  · rw [check_coords_eq]
    rfl
  · rw [check_coords_eq]
    rfl

/-- C8: when loading the zone-definition file fails, the run proceeds with
an empty registry and every frame's occupancy evaluation returns the empty
mapping, whatever the detections; when it succeeds the loaded rectangles
are registered in order. -/
theorem claim_C8_zone_load_failure (coords queue_param : List Box) :
    setupQueues none = []
    ∧ check_coords (setupQueues none) coords = []
    ∧ setupQueues (some queue_param) = queue_param := by
  refine ⟨rfl, ?_, ?_⟩
  · rw [show setupQueues none = [] from rfl, check_coords_eq]
    rfl
  · rw [show setupQueues (some queue_param) = queue_param.foldl add_queue [] from rfl,
      foldl_add_queue]
    simp

/-- C9: `predict` returns the postprocessed box list together with the
annotated frame exactly when the wait status is 0; for any nonzero status
the returned name is unassigned (modelled as `none`, the
`UnboundLocalError` at `return bounding_boxes, image`). -/
theorem claim_C9_predict_wait (waitStatus : ℤ) (threshold : ℚ)
    (width height : ℤ) (networkResult : List Row)
    (image : List (ℤ × ℤ × ℤ × ℤ)) :
    (waitStatus = 0 →
      predict waitStatus threshold width height networkResult image =
        some (preprocess_outputs threshold width height networkResult,
          draw_outputs (preprocess_outputs threshold width height networkResult)
            image))
    ∧ (waitStatus ≠ 0 →
      predict waitStatus threshold width height networkResult image = none) := by
  constructor
  · intro h
    simp [predict, h]
  · intro h
    simp [predict, h]

/-- Witness for C9: wait status 0 yields the (empty) box list and frame;
wait status 1 hits the unassigned-variable branch. -/
theorem claim_C9_predict_wait_witness :
    predict 0 (1/2) 544 320 [] [] = some ([], [])
    ∧ predict 1 (1/2) 544 320 [] [] = none := by
  constructor
  · have h := (claim_C9_predict_wait 0 (1/2) 544 320 [] []).1 rfl
    rw [h]
    rfl
  · exact (claim_C9_predict_wait 1 (1/2) 544 320 [] []).2 (by decide)

/-- C10: zone membership is not exclusive: a detection strictly contained
horizontally in both of two zones increments both counts, so the counts
sum to 2 while only 1 detection is present. -/
theorem claim_C10_not_exclusive (z1 z2 d : Box)
    (h1 : z1.xmin < d.xmin) (h2 : d.xmax < z1.xmax)
    (h3 : z2.xmin < d.xmin) (h4 : d.xmax < z2.xmax) :
    ((check_coords [z1, z2] [d]).map Prod.snd).sum = 2
    ∧ 2 > ([d] : List Box).length := by
  constructor
  · have hlist : check_coords [z1, z2] [d] =
        [(1, countZone z1 [d]), (2, countZone z2 [d])] := by
      rw [check_coords_eq]
      rfl
    have c1 : countZone z1 [d] = 1 := by
      simp [countZone, (inQ_eq_true_iff z1 d).mpr ⟨h1, h2⟩]
    have c2 : countZone z2 [d] = 1 := by
      simp [countZone, (inQ_eq_true_iff z2 d).mpr ⟨h3, h4⟩]
    rw [hlist, c1, c2]
    rfl
  · simp

/-- Witness for C10: nested zones both counting the same detection. -/
theorem claim_C10_not_exclusive_witness :
    ((check_coords [⟨0, 0, 10, 10⟩, ⟨0, 0, 20, 20⟩] [⟨1, 0, 9, 9⟩]).map
        Prod.snd).sum = 2
    ∧ 2 > ([(⟨1, 0, 9, 9⟩ : Box)] : List Box).length :=
  claim_C10_not_exclusive ⟨0, 0, 10, 10⟩ ⟨0, 0, 20, 20⟩ ⟨1, 0, 9, 9⟩
    (by decide) (by decide) (by decide) (by decide)

end SmartQueue
